import Mathlib

/-!
Verification development for the `event-source` crate (storycraft/event-source).

The crate is an in-process, async-aware multi-listener event broadcaster built on an
intrusive, lock-guarded linked list of listener nodes.  The sources contain two
generations of the listener machinery:

* `src/lib.rs` — the complete crate compiled by the example: listener closures have
  shape `FnMut(event) -> Option<()>`, `ListenerItem::poll` returns the node's `done`
  flag, and `EventEmitter::emit_next` wakes the stored waker when that flag is true
  and then always advances the cursor.
* `src/future.rs` (with `sealed.rs`, `types.rs`) — a newer generation in which the
  closure receives a `&mut ControlFlow` and `ListenerItem::poll` returns the final
  `propagation` flag, waking the stored waker itself exactly on the transition of
  `done` from false to true.

Both generations are embedded below.  Machine concerns are modelled shallowly:

* a `Waker` is identified by a natural number; `Waker::will_wake` is identity
  comparison (its only property used by the source is reflexivity);
* the raw closure pointer stored in a node (`closure_ptr`) is modelled as the closure
  function together with its captured state, kept inside the node — valid exactly
  while the node is linked, matching the source invariant;
* the pin-list cursor is an index into the list of nodes; each node carries a
  numeric id so that delivery traces can be stated;
* `emit_next` additionally reports, next to the updated emitter, the id of the node
  whose closure ran and the list of wakers woken, so that delivery order and wakeups
  are observable in theorems; in the source these are side effects.
-/

section Model

variable {E σ ρ : Type}

/-- Task-resumption handle (`std::task::Waker`), identified by a number. -/
abbrev Waker := Nat

/-- `Waker::will_wake`: true when both handles would wake the same task.
Modelled as identity of the handle; the source only relies on reflexivity. -/
def Waker.will_wake (a b : Waker) : Bool :=
  a == b

/-- `ListenerItem` of `src/lib.rs`: per-listener state stored in a linked node.
`closure` together with `state` models the `closure_ptr` raw reference to the
listener closure (a Rust `FnMut(event) -> Option<()>`; the returned `Bool` is
`is_some()` of the closure's result). -/
structure ListenerItem (E σ : Type) where
  done : Bool
  waker : Option Waker
  closure : σ → E → σ × Bool
  state : σ

/-- `ListenerItem::new` (src/lib.rs): fresh item, not done, no waker stored. -/
def ListenerItem.new (closure : σ → E → σ × Bool) (state : σ) : ListenerItem E σ :=
  { done := false, waker := none, closure := closure, state := state }

/-- `ListenerItem::update_waker` (src/lib.rs lines 223-231, identical in
src/future.rs lines 111-119).  The source reads

  `match self.waker { Some(ref waker) if waker.will_wake(waker) => (), _ => { self.waker = Some(waker.clone()); } }`

where the `Some(ref waker)` binding shadows the argument, so the guard compares the
stored waker with itself.  The embedding keeps that shape: in the `some stored`
branch both operands of `will_wake` are `stored`. -/
def ListenerItem.update_waker (item : ListenerItem E σ) (wk : Waker) : ListenerItem E σ :=
  match item.waker with
  | some stored => if stored.will_wake stored then item else { item with waker := some wk }
  | none => { item with waker := some wk }

/-- `ListenerItem::poll` (src/lib.rs lines 235-241): invoke the closure with the
event (always — the closure call is the left operand of `&&`), set `done` when the
closure returned `Some` and the item was not done, and return the `done` flag. -/
def ListenerItem.poll (item : ListenerItem E σ) (event : E) : ListenerItem E σ × Bool :=
  let out := item.closure item.state event
  if out.2 && !item.done then
    ({ item with state := out.1, done := true }, true)
  else
    ({ item with state := out.1 }, item.done)

/-- A linked node of the pin-list: the protected `ListenerItem` plus a numeric id
(the id stands for the node's identity, i.e. its address in the source). -/
structure Node (E σ : Type) where
  id : Nat
  item : ListenerItem E σ

/-- `EventEmitter` (src/lib.rs): a cursor over the listener list, held under the
lock.  The cursor is the index of the current node; the list is the pin-list's
node sequence in order. -/
structure EventEmitter (E σ : Type) where
  list : List (Node E σ)
  idx : Nat

/-- `EventEmitter::emit_next` (src/lib.rs lines 109-122):

  * no current node — return `None`;
  * otherwise run `node.poll(event)`; if it returned `true`, take and wake the
    stored waker; then `move_next` and return `Some(())`.

The embedding returns the updated emitter together with the id of the node whose
closure ran and the wakers woken (observable trace of the call). -/
def EventEmitter.emit_next (em : EventEmitter E σ) (event : E) :
    Option (EventEmitter E σ × Nat × List Waker) :=
  match em.list[em.idx]? with
  | none => none
  | some n =>
    let polled := n.item.poll event
    let woken :=
      if polled.2 then
        match polled.1.waker with
        | some w => ({ polled.1 with waker := none }, [w])
        | none => (polled.1, [])
      else (polled.1, [])
    some ({ list := em.list.set em.idx { n with item := woken.1 }, idx := em.idx + 1 },
          n.id, woken.2)

/-- The per-node effect of one `emit_next` step (poll, then conditional take-and-wake
of the stored waker), split out of `EventEmitter.emit_next` for reasoning: the
updated node and the wakers woken. -/
def dispatchNode (n : Node E σ) (event : E) : Node E σ × List Waker :=
  let polled := n.item.poll event
  if polled.2 then
    match polled.1.waker with
    | some w => ({ n with item := { polled.1 with waker := none } }, [w])
    | none => ({ n with item := polled.1 }, [])
  else ({ n with item := polled.1 }, [])

/-- The `emit!` macro body `while emitter.emit_next(event).is_some() {}`
(src/lib.rs lines 30-34), run with explicit fuel; it returns the final emitter,
the delivery trace (node id, event) in invocation order, and all wakers woken. -/
def emitLoop : Nat → EventEmitter E σ → E → EventEmitter E σ × List (Nat × E) × List Waker
  | 0, em, _ => (em, [], [])
  | fuel + 1, em, event =>
    match em.emit_next event with
    | none => (em, [], [])
    | some (em1, i, woken) =>
      let rest := emitLoop fuel em1 event
      (rest.1, (i, event) :: rest.2.1, woken ++ rest.2.2)

/-- `EventSource` (src/lib.rs): the lock-guarded pin-list of listener nodes.
`nextId` supplies fresh node identities (addresses, in the source). -/
structure EventSource (E σ : Type) where
  list : List (Node E σ)
  nextId : Nat

/-- `EventSource::new`: empty list. -/
def EventSource.new : EventSource E σ :=
  { list := [], nextId := 0 }

/-- `emit!(source, event)` = `source.with_emitter(|mut emitter| while emitter.emit_next(event).is_some() {})`:
`with_emitter` takes the lock and builds the emitter at the list front
(`cursor_front_mut`, src/lib.rs lines 54-60), and the loop drains it.  Returns the
updated source, the delivery trace of this batch, and the wakers woken. -/
def EventSource.emit (src : EventSource E σ) (event : E) :
    EventSource E σ × List (Nat × E) × List Waker :=
  let out := emitLoop (src.list.length + 1) { list := src.list, idx := 0 } event
  ({ src with list := out.1.list }, out.2.1, out.2.2)

/-- Emit a sequence of events, each as one full `emit!` batch; collects the
concatenated delivery trace. -/
def EventSource.emitSeq : EventSource E σ → List E → EventSource E σ × List (Nat × E)
  | src, [] => (src, [])
  | src, e :: es =>
    let out := src.emit e
    let rest := out.1.emitSeq es
    (rest.1, out.2.1 ++ rest.2)

/-- The events a given listener (node id) observed, extracted in order from a
delivery trace. -/
def observations (tr : List (Nat × E)) (i : Nat) : List E :=
  tr.filterMap (fun p => if p.1 = i then some p.2 else none)

/-- The `done` flag of the node with id `i`, if linked (observation helper). -/
def doneOf (src : EventSource E σ) (i : Nat) : Option Bool :=
  (src.list.find? (fun n => n.id == i)).map (fun n => n.item.done)

/-- `EventFnFuture` (src/lib.rs): the listener task handle returned by `on`.
`closure`/`state0` are the listener closure and its captured state; `nodeId = none`
models the node not yet initialized (never polled), `some i` the linked node `i`.
The `source` reference is the `EventSource` value passed to each operation. -/
structure EventFnFuture (E σ : Type) where
  closure : σ → E → σ × Bool
  state0 : σ
  nodeId : Option Nat

/-- `EventSource::on` (src/lib.rs lines 62-72): wrap the listener in a future with
an uninitialized node; nothing is registered until the first poll. -/
def EventSource.on (closure : σ → E → σ × Bool) (state0 : σ) : EventFnFuture E σ :=
  { closure := closure, state0 := state0, nodeId := none }

/-- Result of `Future::poll`. -/
inductive PollRes where
  | ready
  | pending
deriving DecidableEq

/-- `<EventFnFuture as Future>::poll` (src/lib.rs lines 173-194), under the lock:

  * node uninitialized — `push_back` a fresh `ListenerItem` (not done, no waker);
    the new node is not done, so `update_waker` runs and the poll is `Pending`;
  * node initialized — look it up (`protected_mut(..).unwrap()`: `none` here models
    the unwrap panic, unreachable in reachable states); if `done`, return `Ready`
    without touching the node; else `update_waker` with the current waker and
    return `Pending`. -/
def EventFnFuture.poll (src : EventSource E σ) (f : EventFnFuture E σ) (wk : Waker) :
    Option (EventSource E σ × EventFnFuture E σ × PollRes) :=
  match f.nodeId with
  | none =>
    let item := (ListenerItem.new f.closure f.state0).update_waker wk
    some ({ list := src.list ++ [{ id := src.nextId, item := item }],
            nextId := src.nextId + 1 },
          { f with nodeId := some src.nextId }, .pending)
  | some i =>
    match src.list.find? (fun n => n.id == i) with
    | none => none
    | some n =>
      if n.item.done then
        some (src, f, .ready)
      else
        some ({ src with
                list := src.list.map (fun m =>
                  if m.id == i then { m with item := m.item.update_waker wk } else m) },
              f, .pending)

/-- `<EventFnFuture as PinnedDrop>::drop` (src/lib.rs lines 149-159): if the node
was never initialized, do nothing; otherwise take the lock and `reset` the node,
unlinking it from the list. -/
def EventFnFuture.drop (src : EventSource E σ) (f : EventFnFuture E σ) : EventSource E σ :=
  match f.nodeId with
  | none => src
  | some i => { src with list := src.list.filter (fun n => n.id != i) }

/-- First-poll several futures in order (each registration is the first poll of
`EventFnFuture::poll`, which pushes the node to the back of the list). -/
def registerAll : EventSource E σ → List (EventFnFuture E σ) → Waker →
    EventSource E σ × List (EventFnFuture E σ)
  | src, [], _ => (src, [])
  | src, f :: fs, wk =>
    match f.poll src wk with
    | none => (src, f :: fs)
    | some out =>
      let rest := registerAll out.1 fs wk
      (rest.1, out.2.1 :: rest.2)

/-- The wrapper closure `EventSource::once` builds around the inner listener
(src/lib.rs lines 73-92): the wrapped state is the inner state plus the `res`
slot captured by the wrapper.

  `|event| { if res.is_some() { return None; } listener(event).map(|output| { res = Some(output); }) }` -/
def onceClosure (inner : σ → E → σ × Option ρ) : σ × Option ρ → E → (σ × Option ρ) × Bool :=
  fun p event =>
    if p.2.isSome then (p, false)
    else
      match inner p.1 event with
      | (s1, some r) => ((s1, some r), true)
      | (s1, none) => ((s1, none), false)

/-- `EventSource::once(listener)`: register the wrapping closure through `on`,
with the `res` slot initially empty; on resolution the result is `res.unwrap()`,
i.e. the second component of the node's final state. -/
def EventSource.once (inner : σ → E → σ × Option ρ) (state0 : σ) :
    EventFnFuture E (σ × Option ρ) :=
  EventSource.on (onceClosure inner) (state0, none)

/-- `ControlFlow` (src/future.rs lines 143-148): per-dispatch value the listener
closure mutates; `done()` is the field accessor `ControlFlow.done`. -/
structure ControlFlow where
  done : Bool
  propagation : Bool
deriving DecidableEq

/-- `ControlFlow::stop_propagation` (src/future.rs lines 151-156):
`if self.propagation { self.propagation = false; }`. -/
def ControlFlow.stop_propagation (c : ControlFlow) : ControlFlow :=
  if c.propagation then { c with propagation := false } else c

/-- `ControlFlow::set_done` (src/future.rs lines 163-168):
`if !self.done { self.done = true; }`. -/
def ControlFlow.set_done (c : ControlFlow) : ControlFlow :=
  if !c.done then { c with done := true } else c

/-- `ListenerItem` of src/future.rs: like the lib.rs item, but the closure receives
a `&mut ControlFlow` (modelled as taking and returning the `ControlFlow`). -/
structure FlowListenerItem (E σ : Type) where
  done : Bool
  waker : Option Waker
  closure : σ → E → ControlFlow → σ × ControlFlow
  state : σ

/-- `ListenerItem::poll` of src/future.rs lines 123-140: build a fresh `ControlFlow`
seeded `{ done: self.done, propagation: true }`, run the closure, and on the
transition of `done` from false to true set it and take-and-wake the stored waker;
return the final `propagation` flag.  The embedding also returns the wakers woken. -/
def FlowListenerItem.poll (item : FlowListenerItem E σ) (event : E) :
    FlowListenerItem E σ × Bool × List Waker :=
  let seeded : ControlFlow := { done := item.done, propagation := true }
  let out := item.closure item.state event seeded
  if out.2.done && !item.done then
    match item.waker with
    | some w => ({ item with state := out.1, done := true, waker := none }, out.2.propagation, [w])
    | none => ({ item with state := out.1, done := true }, out.2.propagation, [])
  else
    ({ item with state := out.1 }, out.2.propagation, [])

/-- A linked node holding the ControlFlow-based listener item. -/
structure FlowNode (E σ : Type) where
  id : Nat
  item : FlowListenerItem E σ

/-- Cursor over ControlFlow-based nodes. -/
structure FlowEventEmitter (E σ : Type) where
  list : List (FlowNode E σ)
  idx : Nat

/-- `EventEmitter::emit_next` exactly as written in src/lib.rs lines 109-122, applied
to the ControlFlow-based `ListenerItem` of src/future.rs (the pairing the claims
cite): the boolean returned by `ListenerItem::poll` — there the final `propagation`
flag — is used only to decide whether to take-and-wake the stored waker, and the
cursor always advances before returning `Some(())`. -/
def FlowEventEmitter.emit_next (em : FlowEventEmitter E σ) (event : E) :
    Option (FlowEventEmitter E σ × Nat × List Waker) :=
  match em.list[em.idx]? with
  | none => none
  | some n =>
    let polled := n.item.poll event
    let woken :=
      if polled.2.1 then
        match polled.1.waker with
        | some w => ({ polled.1 with waker := none }, polled.2.2 ++ [w])
        | none => (polled.1, polled.2.2)
      else (polled.1, polled.2.2)
    some ({ list := em.list.set em.idx { n with item := woken.1 }, idx := em.idx + 1 },
          n.id, woken.2)

/-! Concrete listener closures and fixtures used in witnesses and counterexamples. -/

/-- A listener that never finishes: `|_| None`. -/
def idleClosure : Unit → Nat → Unit × Bool :=
  fun s _ => (s, false)

/-- A listener recording every event it observes and returning `Some(())` each
time (so it finishes on the first event). -/
def recordClosure : List Nat → Nat → List Nat × Bool :=
  fun s e => (s ++ [e], true)

/-- A listener that finishes on any event without state. -/
def someClosure : Unit → Nat → Unit × Bool :=
  fun s _ => (s, true)

/-- An inner `once` listener returning `Some(event)` exactly for event 9. -/
def innerOnce : Unit → Nat → Unit × Option Nat :=
  fun s e => (s, if e == 9 then some e else none)

/-- A source with two pending listeners (node ids 0 and 1). -/
def twoNodeSource : EventSource Nat Unit :=
  ⟨[⟨0, ⟨false, none, idleClosure, ()⟩⟩, ⟨1, ⟨false, none, idleClosure, ()⟩⟩], 2⟩

/-- The registered future owning node 0 of `twoNodeSource`. -/
def idleFuture : EventFnFuture Nat Unit :=
  ⟨idleClosure, (), some 0⟩

/-- A source with one pending listener (node id 0) that finishes on any event. -/
def oneNodeSource : EventSource Nat Unit :=
  ⟨[⟨0, ⟨false, none, someClosure, ()⟩⟩], 1⟩

/-- The registered future owning node 0 of `oneNodeSource`. -/
def someFuture : EventFnFuture Nat Unit :=
  ⟨someClosure, (), some 0⟩

/-- A source with one already-finished listener (node id 0). -/
def readySource : EventSource Nat Unit :=
  ⟨[⟨0, ⟨true, none, idleClosure, ()⟩⟩], 1⟩

/-- The registered future owning the finished node 0 of `readySource`. -/
def readyFuture : EventFnFuture Nat Unit :=
  ⟨idleClosure, (), some 0⟩

end Model

/-! ## Helper lemmas -/

section Lemmas

variable {E σ ρ α : Type}

theorem getElem?_append_len (l₁ l₂ : List α) (n : α) :
    (l₁ ++ n :: l₂)[l₁.length]? = some n := by
  rw [List.getElem?_append_right le_rfl]
  simp

theorem set_append_len (l₁ l₂ : List α) (n v : α) :
    (l₁ ++ n :: l₂).set l₁.length v = l₁ ++ v :: l₂ := by
  induction l₁ with
  | nil => rfl
  | cons a l ih => simp [List.set, ih]

theorem emit_next_eq (em : EventEmitter E σ) (event : E) :
    em.emit_next event =
      match em.list[em.idx]? with
      | none => none
      | some n =>
        some ({ list := em.list.set em.idx (dispatchNode n event).1, idx := em.idx + 1 },
              n.id, (dispatchNode n event).2) := by
  unfold EventEmitter.emit_next dispatchNode
  cases em.list[em.idx]? with
  | none => rfl
  | some n =>
    rcases hp : n.item.poll event with ⟨item1, ret⟩
    cases ret <;> rcases hw : item1.waker with _ | w <;> simp [hp, hw]

theorem emitLoop_go (event : E) :
    ∀ (l₂ l₁ : List (Node E σ)) (fuel : Nat), l₂.length < fuel →
      emitLoop fuel { list := l₁ ++ l₂, idx := l₁.length } event =
        ({ list := l₁ ++ l₂.map (fun n => (dispatchNode n event).1),
           idx := l₁.length + l₂.length },
         l₂.map (fun n => (n.id, event)),
         (l₂.map (fun n => (dispatchNode n event).2)).flatten) := by
  intro l₂
  induction l₂ with
  | nil =>
    intro l₁ fuel hfuel
    match fuel, hfuel with
    | fuel + 1, _ =>
      rw [emitLoop, emit_next_eq]
      simp
  | cons n l₂ ih =>
    intro l₁ fuel hfuel
    match fuel, hfuel with
    | fuel + 1, hfuel =>
      rw [emitLoop, emit_next_eq]
      simp only [getElem?_append_len, set_append_len]
      have hrw : l₁ ++ (dispatchNode n event).1 :: l₂
          = (l₁ ++ [(dispatchNode n event).1]) ++ l₂ := by simp
      have hlen : l₁.length + 1 = (l₁ ++ [(dispatchNode n event).1]).length := by simp
      rw [hrw, hlen, ih ((l₁ ++ [(dispatchNode n event).1])) fuel (by simpa using hfuel)]
      simp [Nat.add_assoc, Nat.add_comm 1]

theorem emit_spec (src : EventSource E σ) (event : E) :
    src.emit event =
      ({ list := src.list.map (fun n => (dispatchNode n event).1), nextId := src.nextId },
       src.list.map (fun n => (n.id, event)),
       (src.list.map (fun n => (dispatchNode n event).2)).flatten) := by
  unfold EventSource.emit
  have h := emitLoop_go (σ := σ) event src.list [] (src.list.length + 1) (by omega)
  simp only [List.nil_append, List.length_nil] at h
  rw [h]

theorem dispatchNode_id (n : Node E σ) (event : E) :
    ((dispatchNode n event).1).id = n.id := by
  unfold dispatchNode
  rcases hp : n.item.poll event with ⟨item1, ret⟩
  cases ret <;> rcases hw : item1.waker with _ | w <;> simp [hp, hw]

theorem ListenerItem.poll_done_mono (item : ListenerItem E σ) (event : E) :
    item.done = true → ((item.poll event).1).done = true := by
  intro h
  unfold ListenerItem.poll
  simp [h]

theorem dispatchNode_done_mono (n : Node E σ) (event : E) :
    n.item.done = true → ((dispatchNode n event).1).item.done = true := by
  intro h
  have hpoll := ListenerItem.poll_done_mono n.item event h
  unfold dispatchNode
  rcases hp : n.item.poll event with ⟨item1, ret⟩
  rw [hp] at hpoll
  simp only at hpoll
  cases ret <;> rcases hw : item1.waker with _ | w <;> simp [hp, hw, hpoll]

theorem emit_ids (src : EventSource E σ) (event : E) :
    ((src.emit event).1).list.map Node.id = src.list.map Node.id := by
  rw [emit_spec]
  simp only [List.map_map]
  exact List.map_congr_left fun n _ => dispatchNode_id n event

theorem emit_trace (src : EventSource E σ) (event : E) :
    ((src.emit event).2).1 = src.list.map (fun n => (n.id, event)) := by
  rw [emit_spec]

theorem emitSeq_trace (es : List E) :
    ∀ src : EventSource E σ,
      ((src.emitSeq es).2) =
        (es.map (fun e => (src.list.map Node.id).map (fun j => (j, e)))).flatten := by
  induction es with
  | nil => intro src; rfl
  | cons e es ih =>
    intro src
    show ((src.emit e).2.1 ++ (((src.emit e).1).emitSeq es).2) = _
    rw [emit_trace, ih ((src.emit e).1)]
    rw [emit_ids]
    simp [List.map_map]

theorem emitSeq_trace_mem (es : List E) (src : EventSource E σ) (p : Nat × E) :
    p ∈ (src.emitSeq es).2 → p.1 ∈ src.list.map Node.id := by
  intro hp
  rw [emitSeq_trace] at hp
  rcases List.mem_flatten.mp hp with ⟨l, hl, hpl⟩
  rcases List.mem_map.mp hl with ⟨e, _, rfl⟩
  rcases List.mem_map.mp hpl with ⟨j, hj, rfl⟩
  exact hj

theorem find?_emit (src : EventSource E σ) (event : E) (i : Nat) :
    ((src.emit event).1).list.find? (fun n => n.id == i)
      = (src.list.find? (fun n => n.id == i)).map (fun n => (dispatchNode n event).1) := by
  rw [emit_spec]
  show ((src.list.map (fun n => (dispatchNode n event).1)).find? (fun n => n.id == i)) = _
  rw [List.find?_map]
  have hpred : ((fun n : Node E σ => n.id == i) ∘ fun n => (dispatchNode n event).1)
      = fun n : Node E σ => n.id == i := by
    funext n
    simp [Function.comp, dispatchNode_id]
  rw [hpred]

theorem ListenerItem.poll_fires (item : ListenerItem E σ) (event : E)
    (hdone : item.done = false) (hsome : (item.closure item.state event).2 = true) :
    item.poll event
      = ({ item with state := (item.closure item.state event).1, done := true }, true) := by
  unfold ListenerItem.poll
  simp [hdone, hsome]

theorem dispatchNode_sets_done (n : Node E σ) (event : E)
    (hdone : n.item.done = false) (hsome : (n.item.closure n.item.state event).2 = true) :
    ((dispatchNode n event).1).item.done = true := by
  unfold dispatchNode
  rw [ListenerItem.poll_fires n.item event hdone hsome]
  rcases hw : n.item.waker with _ | w <;> simp [hw]

theorem observations_eq_nil (tr : List (Nat × E)) (i : Nat)
    (h : ∀ p ∈ tr, p.1 ≠ i) : observations tr i = [] := by
  unfold observations
  exact List.filterMap_eq_nil_iff.mpr fun p hp => by simp [h p hp]

theorem drop_not_mem (src : EventSource E σ) (f : EventFnFuture E σ) (i : Nat)
    (h : f.nodeId = some i) : i ∉ ((f.drop src).list.map Node.id) := by
  unfold EventFnFuture.drop
  rw [h]
  intro hmem
  rcases List.mem_map.mp hmem with ⟨n, hn, rfl⟩
  rcases List.mem_filter.mp hn with ⟨-, hne⟩
  simp at hne

theorem observations_emitSeq_nil (src : EventSource E σ) (i : Nat) (es : List E)
    (h : i ∉ src.list.map Node.id) : observations ((src.emitSeq es).2) i = [] := by
  refine observations_eq_nil _ _ fun p hp hpi => ?_
  exact h (hpi ▸ emitSeq_trace_mem es src p hp)

theorem registerAll_ids :
    ∀ (fs : List (EventFnFuture E σ)) (src : EventSource E σ) (wk : Waker),
      (∀ f ∈ fs, f.nodeId = none) →
      (registerAll src fs wk).1.list.map Node.id
          = src.list.map Node.id ++ List.range' src.nextId fs.length ∧
        (registerAll src fs wk).1.nextId = src.nextId + fs.length := by
  intro fs
  induction fs with
  | nil => intro src wk _; simp [registerAll]
  | cons f fs ih =>
    intro src wk h
    have hf : f.nodeId = none := h f (List.mem_cons_self f fs)
    have hfs : ∀ g ∈ fs, g.nodeId = none := fun g hg => h g (List.mem_cons_of_mem f hg)
    unfold registerAll EventFnFuture.poll
    rw [hf]
    simp only
    rcases ih ⟨src.list ++ [⟨src.nextId, (ListenerItem.new f.closure f.state0).update_waker wk⟩], src.nextId + 1⟩ wk hfs with ⟨hids, hnext⟩
    refine ⟨?_, ?_⟩
    · rw [hids]
      simp [List.range'_succ]
    · rw [hnext]
      simp
      omega

theorem observations_single_batch (ids : List Nat) (e : E) (i : Nat)
    (hnd : ids.Nodup) (hmem : i ∈ ids) :
    observations (ids.map (fun j => (j, e))) i = [e] := by
  unfold observations
  rw [List.filterMap_map]
  induction ids with
  | nil => cases hmem
  | cons a t ih =>
    by_cases hai : a = i
    · subst hai
      have hnotin : a ∉ t := (List.nodup_cons.mp hnd).1
      have htail : t.filterMap ((fun p => if p.1 = a then some p.2 else none)
          ∘ (fun j => (j, e))) = [] := by
        refine List.filterMap_eq_nil_iff.mpr fun j hj => ?_
        have : j ≠ a := fun hja => hnotin (hja ▸ hj)
        simp [Function.comp, this]
      simp [Function.comp, htail]
    · have hmem' : i ∈ t := by
        rcases List.mem_cons.mp hmem with h | h
        · exact absurd h.symm hai
        · exact h
      have := ih (List.nodup_cons.mp hnd).2 hmem'
      simpa [Function.comp, hai] using this

theorem observations_flatten_batches (events : List E) (ids : List Nat) (i : Nat)
    (hnd : ids.Nodup) (hmem : i ∈ ids) :
    observations ((events.map (fun e => ids.map (fun j => (j, e)))).flatten) i = events := by
  induction events with
  | nil => rfl
  | cons e es ih =>
    show observations ((ids.map (fun j => (j, e))) ++
      (es.map (fun e => ids.map (fun j => (j, e)))).flatten) i = e :: es
    unfold observations at ih ⊢
    rw [List.filterMap_append]
    have h1 := observations_single_batch ids e i hnd hmem
    unfold observations at h1
    rw [h1, ih]
    rfl

theorem futurePoll_ready (src : EventSource E σ) (f : EventFnFuture E σ) (wk : Waker)
    (i : Nat) (n : Node E σ) (hid : f.nodeId = some i)
    (hfind : src.list.find? (fun m => m.id == i) = some n) (hdone : n.item.done = true) :
    f.poll src wk = some (src, f, .ready) := by
  unfold EventFnFuture.poll
  rw [hid]
  simp [hfind, hdone]

theorem futurePoll_ready_inv (src src2 : EventSource E σ) (f f2 : EventFnFuture E σ)
    (wk : Waker) (h : f.poll src wk = some (src2, f2, .ready)) :
    src2 = src ∧ f2 = f ∧
      ∃ i n, f.nodeId = some i ∧ src.list.find? (fun m => m.id == i) = some n ∧
        n.item.done = true := by
  rcases hid : f.nodeId with _ | i
  · simp [EventFnFuture.poll, hid] at h
  · simp only [EventFnFuture.poll, hid] at h
    rcases hfind : src.list.find? (fun m => m.id == i) with _ | n
    · rw [hfind] at h
      cases h
    · rw [hfind] at h
      by_cases hd : n.item.done
      · simp only [hd, if_true] at h
        rcases h with ⟨rfl, rfl, -⟩
        exact ⟨rfl, rfl, i, n, rfl, hfind, hd⟩
      · simp [hd] at h

end Lemmas

/-! ## Claim theorems -/

section Claims

variable {E σ ρ : Type}

/-- Claim C9 (confirmed): `ControlFlow::set_done` and `ControlFlow::stop_propagation`
are idempotent — within one dispatch, calling either more than once yields the same
`ControlFlow` state as calling it once, and the repeated call is a no-op, not an
error (both are total functions). -/
theorem controlFlow_set_done_stop_propagation_idempotent :
    ∀ c : ControlFlow,
      c.stop_propagation.stop_propagation = c.stop_propagation ∧
        c.set_done.set_done = c.set_done := by
  intro c
  rcases c with ⟨d, p⟩
  cases d <;> cases p <;>
    exact ⟨rfl, rfl⟩

/-- Claim C8 (counterexample): it is not true that `done()` called at any point
during an invocation returns the finished state as seeded at invocation start.
Concretely, for a node with `done = false` the `ControlFlow` is seeded with
`done = false`, yet a closure that calls `set_done` and then `done()` reads back
`true` (recorded here in the listener state): `done()` returns the current field,
not the seed. -/
theorem done_after_set_done_counterexample :
    (FlowListenerItem.poll ⟨false, none, fun (_ : Bool) (_ : Nat) f => (f.set_done.done, f.set_done), false⟩ 0).1.state = true ∧
      ¬((FlowListenerItem.poll ⟨false, none, fun (_ : Bool) (_ : Nat) f => (f.set_done.done, f.set_done), false⟩ 0).1.state = false) := by
  constructor
  · rfl
  · decide

/-- Claim C8 (amended, proved): for every closure invocation during a dispatch,
`ListenerItem::poll` (src/future.rs lines 123-140) constructs a fresh `ControlFlow`
with `done` seeded from the node's current finished state and `propagation` seeded
`true` — the closure's outputs are computed from exactly that seeded value — and
`done()` returns the ControlFlow's current `done` field: it equals the seeded value
at invocation start, and returns `true` once the closure has called `set_done`. -/
theorem controlFlow_seeded_done_current :
    (∀ (item : FlowListenerItem E σ) (event : E),
        (item.poll event).1.state
          = (item.closure item.state event ⟨item.done, true⟩).1 ∧
        (item.poll event).2.1
          = (item.closure item.state event ⟨item.done, true⟩).2.propagation) ∧
      (∀ d : Bool, (ControlFlow.mk d true).done = d) ∧
      (∀ c : ControlFlow, c.set_done.done = true) := by
  refine ⟨?_, fun d => rfl, ?_⟩
  · intro item event
    unfold FlowListenerItem.poll
    rcases hout : item.closure item.state event ⟨item.done, true⟩ with ⟨s1, flow⟩
    by_cases hb : flow.done && !item.done
    · rcases hw : item.waker with _ | w <;> simp [hout, hb, hw]
    · simp [hout, hb]
  · intro c
    rcases c with ⟨d, p⟩
    cases d <;> rfl

/-- At the inner layer — `ListenerItem::poll` of src/future.rs lines 123-140 taken
by itself — the stored resumption handle is woken exactly at the transition of the
node's `done` flag from false to true: a poll that leaves the flag unchanged wakes
nothing, and the poll that sets the flag wakes the stored handle exactly once,
consuming it.  The dispatch layer above it does not preserve this (see
`emit_next_wakes_unfinished_listener`). -/
theorem flow_poll_wake_on_transition :
    ∀ (item : FlowListenerItem E σ) (event : E),
      ((item.poll event).1.done = item.done → (item.poll event).2.2 = []) ∧
        (item.done = false → (item.poll event).1.done = true →
          (item.poll event).2.2 = item.waker.toList ∧ (item.poll event).1.waker = none) := by
  intro item event
  rcases item with ⟨d, wk, cl, st⟩
  simp only [FlowListenerItem.poll]
  rcases hout : cl st event ⟨d, true⟩ with ⟨s1, fd, fp⟩
  cases d <;> cases fd <;> rcases wk with _ | w <;> simp [hout]

/-- Example for the inner layer: a pending listener with stored handle 5 whose
closure calls `set_done` is woken exactly once by that poll, and the handle is
consumed. -/
theorem flow_poll_wake_on_transition_example :
    (FlowListenerItem.poll ⟨false, some 5, fun (s : Unit) (_ : Nat) f => (s, f.set_done), ()⟩ 0).2.2
        = (some 5 : Option Waker).toList ∧
      (FlowListenerItem.poll ⟨false, some 5, fun (s : Unit) (_ : Nat) f => (s, f.set_done), ()⟩ 0).1.waker
        = none :=
  (flow_poll_wake_on_transition ⟨false, some 5, fun (s : Unit) (_ : Nat) f => (s, f.set_done), ()⟩ 0).2 rfl (by decide)

/-- Claim C6 (code bug): at dispatch level the wake is not edge-triggered.
`EventEmitter::emit_next` (src/lib.rs lines 109-122) contains a second waking site,
gated on the boolean returned by `ListenerItem::poll`; under the pairing the claim
cites — that emitter over the ControlFlow-based `ListenerItem` of src/future.rs
lines 123-140, whose boolean result is the final `propagation` flag, `true` by
default — a dispatch on a pending listener whose closure leaves the `ControlFlow`
untouched wakes (and consumes) the stored handle even though the `done` flag stays
false.  Here: one pending listener, stored handle 5, inert closure, event 11: the
poll reports no transition (`done` still false, boolean result `true`), yet the
dispatch wakes handle 5 and strips the node of its handle.  The internal wake of
`ListenerItem::poll` itself is edge-triggered (`flow_poll_wake_on_transition`);
the stale emitter layer — a leftover of the old generation, in which the poll
boolean meant `done` — breaks it. -/
theorem emit_next_wakes_unfinished_listener :
    ((FlowListenerItem.poll ⟨false, some 5, fun (s : Unit) (_ : Nat) f => (s, f), ()⟩ 11).1.done = false) ∧
      ((FlowListenerItem.poll ⟨false, some 5, fun (s : Unit) (_ : Nat) f => (s, f), ()⟩ 11).2.1 = true) ∧
      (FlowEventEmitter.emit_next ⟨[⟨0, ⟨false, some 5, fun (s : Unit) (_ : Nat) f => (s, f), ()⟩⟩], 0⟩ 11).map
          (fun o => (o.1.list.map (fun n => (n.item.done, n.item.waker)), o.2.2))
        = some ([(false, none)], [5]) := by
  refine ⟨rfl, rfl, ?_⟩
  decide

/-- Claim C5 (code bug): `ListenerItem::update_waker` (src/lib.rs lines 223-231,
identical in src/future.rs lines 111-119) never refreshes an already-stored waker:
the guard `Some(ref waker) if waker.will_wake(waker)` shadows the argument and
compares the stored waker with itself, which is always true.  Here: a node stores
waker 3; its future is polled from a task with waker 9 (`will_wake 3 9 = false`);
the poll returns `Pending` but the node still holds the stale waker 3, so the
claim's parenthetical — a task whose waker changed between polls is still woken —
fails. -/
theorem update_waker_keeps_stale_waker :
    Waker.will_wake 3 9 = false ∧
      (ListenerItem.update_waker ⟨false, some 3, fun (s : Unit) (_ : Nat) => (s, false), ()⟩ 9).waker = some 3 ∧
      (EventFnFuture.poll ⟨[⟨0, ⟨false, some 3, fun (s : Unit) (_ : Nat) => (s, false), ()⟩⟩], 1⟩ ⟨fun (s : Unit) (_ : Nat) => (s, false), (), some 0⟩ 9).map
          (fun o => (o.1.list.map (fun n => n.item.waker), o.2.2))
        = some ([some 3], PollRes.pending) := by
  refine ⟨rfl, rfl, ?_⟩
  decide

/-- Claim C1 (code bug): `EventEmitter::emit_next` (src/lib.rs lines 109-122) does
not stop on `stop_propagation`: paired with the ControlFlow-based
`ListenerItem::poll` of src/future.rs lines 123-140 (whose boolean result is the
final `propagation` flag), the emitter uses that result only to decide waking and
then unconditionally advances.  Here: one pending listener whose closure calls
`stop_propagation`; its poll result is `false` (propagation cleared), yet
`emit_next` returns `Some(())` — not `None` — with the cursor advanced past the
node. -/
theorem emit_next_advances_despite_stop_propagation :
    ((FlowListenerItem.poll ⟨false, some 7, fun (s : Unit) (_ : Nat) f => (s, f.stop_propagation), ()⟩ 5).2.1 = false) ∧
      (FlowEventEmitter.emit_next ⟨[⟨0, ⟨false, some 7, fun (s : Unit) (_ : Nat) f => (s, f.stop_propagation), ()⟩⟩], 0⟩ 5).map
          (fun o => o.1.idx)
        = some 1 := by
  refine ⟨rfl, ?_⟩
  decide

/-- Claim C2 (confirmed): dropping an `EventFnFuture` whose node is linked
(`PinnedDrop`, src/lib.rs lines 149-159) unconditionally unlinks the node and
never fails (the operation is total): the dropped node's id disappears from the
list, all other nodes are preserved in order (the remaining list is a sublist of
the old one), and no subsequent `emit_next` — over any sequence of later
emissions — ever invokes that listener's closure: its observation trace after the
drop is empty. -/
theorem drop_unlinks_and_silences_listener :
    ∀ (src : EventSource E σ) (f : EventFnFuture E σ) (i : Nat),
      f.nodeId = some i →
      ((f.drop src).list.map Node.id = (src.list.map Node.id).filter (fun j => j != i)) ∧
        ((f.drop src).list.Sublist src.list) ∧
        (∀ es : List E, observations (((f.drop src).emitSeq es).2) i = []) := by
  intro src f i h
  refine ⟨?_, ?_, ?_⟩
  · unfold EventFnFuture.drop
    rw [h, List.filter_map]
    rfl
  · unfold EventFnFuture.drop
    rw [h]
    exact List.filter_sublist _
  · intro es
    exact observations_emitSeq_nil _ i es (drop_not_mem src f i h)

/-- Witness for C2: dropping the future owning node 0 of a two-listener source
leaves exactly node 1 linked, and two further emissions never invoke listener 0. -/
theorem drop_unlinks_and_silences_listener_witness :
    ((idleFuture.drop twoNodeSource).list.map Node.id
        = ((twoNodeSource.list.map Node.id).filter (fun j => j != 0))) ∧
      observations (((idleFuture.drop twoNodeSource).emitSeq [4, 5]).2) 0 = [] :=
  ⟨(drop_unlinks_and_silences_listener twoNodeSource idleFuture 0 rfl).1,
   (drop_unlinks_and_silences_listener twoNodeSource idleFuture 0 rfl).2.2 [4, 5]⟩

/-- Claim C10 (confirmed): the `done` flag is monotone — neither `ListenerItem::poll`
(either generation), nor `update_waker`, nor a full `emit!` batch ever resets a
node's `done` from true to false — and consequently `EventFnFuture::poll` is
Ready-stable: once it returned `Ready`, polling again returns `Ready` with the
state untouched, also after any further emission. -/
theorem done_flag_monotone_ready_stable :
    (∀ (item : ListenerItem E σ) (event : E),
        item.done = true → (item.poll event).1.done = true) ∧
      (∀ (item : ListenerItem E σ) (wk : Waker),
          (item.update_waker wk).done = item.done) ∧
      (∀ (item : FlowListenerItem E σ) (event : E),
          item.done = true → (item.poll event).1.done = true) ∧
      (∀ (src : EventSource E σ) (event : E) (i : Nat),
          doneOf src i = some true → doneOf ((src.emit event).1) i = some true) ∧
      (∀ (src src2 : EventSource E σ) (f f2 : EventFnFuture E σ) (wk wk2 : Waker),
          f.poll src wk = some (src2, f2, .ready) →
            f2.poll src2 wk2 = some (src2, f2, .ready)) ∧
      (∀ (src src2 : EventSource E σ) (f f2 : EventFnFuture E σ) (wk wk2 : Waker)
          (event : E),
          f.poll src wk = some (src2, f2, .ready) →
            f2.poll ((src2.emit event).1) wk2 = some ((src2.emit event).1, f2, .ready)) := by
  refine ⟨ListenerItem.poll_done_mono, ?_, ?_, ?_, ?_, ?_⟩
  · intro item wk
    unfold ListenerItem.update_waker
    rcases hw : item.waker with _ | stored
    · rfl
    · simp [Waker.will_wake]
  · intro item event h
    unfold FlowListenerItem.poll
    rcases hout : item.closure item.state event ⟨item.done, true⟩ with ⟨s1, fd, fp⟩
    simp [hout, h]
  · intro src event i h
    unfold doneOf at h ⊢
    rw [find?_emit]
    rcases hfind : src.list.find? (fun n => n.id == i) with _ | n
    · rw [hfind] at h
      cases h
    · rw [hfind] at h
      simp only [Option.map_some'] at h
      have h' : n.item.done = true := Option.some.inj h
      rw [hfind]
      simp [dispatchNode_done_mono n event h']
  · intro src src2 f f2 wk wk2 h
    rcases futurePoll_ready_inv src src2 f f2 wk h with ⟨rfl, rfl, i, n, hid, hfind, hd⟩
    exact futurePoll_ready _ _ wk2 i n hid hfind hd
  · intro src src2 f f2 wk wk2 event h
    rcases futurePoll_ready_inv src src2 f f2 wk h with ⟨rfl, rfl, i, n, hid, hfind, hd⟩
    refine futurePoll_ready _ _ wk2 i ((dispatchNode n event).1) hid ?_
      (dispatchNode_done_mono n event hd)
    rw [find?_emit, hfind]
    rfl

/-- Witness for C10: polling the future of an already-finished node returns
`Ready` again, with the source and future untouched. -/
theorem done_flag_monotone_ready_stable_witness :
    readyFuture.poll readySource 1 = some (readySource, readyFuture, PollRes.ready) :=
  done_flag_monotone_ready_stable.2.2.2.2.1 readySource readySource readyFuture readyFuture 0 1 rfl

/-- Claim C4 (counterexample): it is not true that a listener registered via `on`
is never invoked with events emitted after its first `Some`.  A recording listener
that returns `Some` on every event is registered (first poll), event 1 is emitted —
its node's `done` flag becomes true — and then event 2 is emitted while the node is
still linked: the closure runs again and records `[1, 2]`, not `[1]`. -/
theorem on_listener_invoked_after_finish_counterexample :
    (EventFnFuture.poll (EventSource.new) (EventSource.on recordClosure []) 1).map
        (fun out => (((out.1.emit 1).1.emit 2).1.list.map (fun n => n.item.state),
                     (out.1.emit 1).1.list.map (fun n => n.item.done)))
      = some ([[1, 2]], [true]) := by
  decide

/-- Claim C4 (amended, proved): a listener registered via `on` finishes on the
first event for which its closure returns `Some`: that emission sets the node's
`done` flag, the future's next poll returns `Ready`, and once the future is
dropped (unlinking the node) the closure is never invoked for any later emission.
While the node remains linked, however, later events may still invoke the closure
(see the counterexample). -/
theorem on_first_some_resolves_then_drop_silences :
    ∀ (src : EventSource E σ) (f : EventFnFuture E σ) (i : Nat) (n : Node E σ)
      (event : E) (wk : Waker),
      f.nodeId = some i →
      src.list.find? (fun m => m.id == i) = some n →
      n.item.done = false →
      (n.item.closure n.item.state event).2 = true →
      (doneOf ((src.emit event).1) i = some true) ∧
        (f.poll ((src.emit event).1) wk = some ((src.emit event).1, f, .ready)) ∧
        (∀ es : List E,
          observations (((f.drop ((src.emit event).1)).emitSeq es).2) i = []) := by
  intro src f i n event wk hid hfind hdone hsome
  have hfind2 : ((src.emit event).1).list.find? (fun m => m.id == i)
      = some ((dispatchNode n event).1) := by
    rw [find?_emit, hfind]
    rfl
  have hdone2 := dispatchNode_sets_done n event hdone hsome
  refine ⟨?_, ?_, ?_⟩
  · unfold doneOf
    rw [hfind2]
    simp [hdone2]
  · exact futurePoll_ready _ f wk i _ hid hfind2 hdone2
  · intro es
    exact observations_emitSeq_nil _ i es (drop_not_mem _ f i hid)

/-- Witness for C4 (amended): the finish-on-any-event listener is marked done by
emitting event 5, and after dropping its future a further emission invokes it no
more. -/
theorem on_first_some_resolves_then_drop_silences_witness :
    doneOf ((oneNodeSource.emit 5).1) 0 = some true ∧
      observations (((someFuture.drop ((oneNodeSource.emit 5).1)).emitSeq [6]).2) 0 = [] :=
  ⟨(on_first_some_resolves_then_drop_silences oneNodeSource someFuture 0 _ 5 1 rfl rfl rfl rfl).1,
   (on_first_some_resolves_then_drop_silences oneNodeSource someFuture 0 _ 5 1 rfl rfl rfl rfl).2.2 [6]⟩

/-- Claim C7 (confirmed): the wrapper closure built by `EventSource::once`
(src/lib.rs lines 73-92) resolves with the first `Some(result)` the inner
listener produces: once `res` holds a result, every further event is ignored —
for every inner listener the wrapper returns without invoking it and without
touching the stored result — the invocation producing the first `Some` stores the
result, returns `Some(())` (setting the node's `done` flag in
`ListenerItem::poll`), and with the node done the future's poll resolves
(`Ready`), yielding `res.unwrap()` — the stored first result. -/
theorem once_resolves_with_first_some :
    (∀ (f : σ → E → σ × Option ρ) (s : σ) (r : ρ) (event : E),
        onceClosure f (s, some r) event = ((s, some r), false)) ∧
      (∀ (f : σ → E → σ × Option ρ) (s s1 : σ) (r : ρ) (event : E),
          f s event = (s1, some r) → onceClosure f (s, none) event = ((s1, some r), true)) ∧
      (∀ (f : σ → E → σ × Option ρ) (s s1 : σ) (r : ρ) (event : E) (wk : Option Waker),
          f s event = (s1, some r) →
            ListenerItem.poll ⟨false, wk, onceClosure f, (s, none)⟩ event
              = (⟨true, wk, onceClosure f, (s1, some r)⟩, true)) ∧
      (∀ (f : σ → E → σ × Option ρ) (s : σ) (r : ρ) (event : E) (wk : Option Waker)
          (d : Bool),
          ListenerItem.poll ⟨d, wk, onceClosure f, (s, some r)⟩ event
            = (⟨d, wk, onceClosure f, (s, some r)⟩, d)) ∧
      (∀ (src : EventSource E (σ × Option ρ)) (f : EventFnFuture E (σ × Option ρ))
          (wk : Waker) (i : Nat) (n : Node E (σ × Option ρ)),
          f.nodeId = some i → src.list.find? (fun m => m.id == i) = some n →
            n.item.done = true → f.poll src wk = some (src, f, .ready)) := by
  refine ⟨?_, ?_, ?_, ?_, ?_⟩
  · intro f s r event
    unfold onceClosure
    simp
  · intro f s s1 r event h
    unfold onceClosure
    simp [h]
  · intro f s s1 r event wk h
    have h2 : onceClosure f (s, none) event = ((s1, some r), true) := by
      unfold onceClosure
      simp [h]
    unfold ListenerItem.poll
    simp [h2]
  · intro f s r event wk d
    have h1 : onceClosure f (s, some r) event = ((s, some r), false) := by
      unfold onceClosure
      simp
    unfold ListenerItem.poll
    simp [h1]
  · intro src f wk i n hid hfind hd
    exact futurePoll_ready src f wk i n hid hfind hd

/-- Witness for C7: the inner listener answering event 9 with `Some 9` makes the
wrapped node finish with stored result 9 on that invocation. -/
theorem once_resolves_with_first_some_witness :
    ListenerItem.poll ⟨false, none, onceClosure innerOnce, ((), none)⟩ 9
      = (⟨true, none, onceClosure innerOnce, ((), some 9)⟩, true) :=
  once_resolves_with_first_some.2.2.1 innerOnce () () 9 9 none rfl

/-- Claim C3 (confirmed): N listeners registered (each first-polled, which pushes
its node to the back of the list) before M events are emitted give node ids in
exactly registration order `0, …, N-1`; each emission batch traverses from the
front, so the full delivery trace is, batch by batch, every listener in
registration order; consequently every listener — in particular every
not-finished one — observes all M events in exactly emission order. -/
theorem fifo_delivery_registration_order :
    ∀ (fs : List (EventFnFuture E σ)) (wk : Waker) (events : List E) (i : Nat),
      (∀ f ∈ fs, f.nodeId = none) → i < fs.length →
      ((registerAll EventSource.new fs wk).1.list.map Node.id = List.range fs.length) ∧
        (((registerAll EventSource.new fs wk).1.emitSeq events).2
            = (events.map (fun e => (List.range fs.length).map (fun j => (j, e)))).flatten) ∧
        (observations (((registerAll EventSource.new fs wk).1.emitSeq events).2) i
            = events) := by
  intro fs wk events i hunreg hi
  have hids := (registerAll_ids fs EventSource.new wk hunreg).1
  have hids' : (registerAll EventSource.new fs wk).1.list.map Node.id
      = List.range fs.length := by
    rw [hids]
    show [] ++ List.range' 0 fs.length = _
    rw [List.nil_append, List.range_eq_range']
  have htr := emitSeq_trace events (registerAll EventSource.new fs wk).1
  rw [hids'] at htr
  refine ⟨hids', htr, ?_⟩
  rw [htr]
  exact observations_flatten_batches events (List.range fs.length) i
    (List.nodup_range _) (List.mem_range.mpr hi)

/-- Witness for C3: two listeners registered before events 5 and 7 are emitted;
listener 0 observes `[5, 7]` in order. -/
theorem fifo_delivery_registration_order_witness :
    observations (((registerAll EventSource.new
        [EventSource.on idleClosure (), EventSource.on idleClosure ()] 3).1.emitSeq
          [5, 7]).2) 0
      = [5, 7] :=
  (fifo_delivery_registration_order
    [EventSource.on idleClosure (), EventSource.on idleClosure ()] 3 [5, 7] 0
    (by decide) (by decide)).2.2

end Claims
